import Mathlib

/-!
Shallow embedding of the quota-reconciliation core of `streamlit_app.py`
(functions `validate_data_file`, `validate_universe_file`, `process_files`).

Tables are modelled as lists of typed rows.  pandas `NaN` cells are modelled
as `Option.none`; numeric cells are exact rationals (`ℚ`), which is faithful
for the finite decimal values these tables carry.  Errors raised with
`raise ValueError(msg)` are modelled as `Except.error msg`.
-/

namespace QuotaApp

/-- Python `", ".join(l)` (also f-string interpolation of a joined list). -/
def joinComma : List String → String
  | [] => ""
  | [s] => s
  | s :: rest => s ++ ", " ++ joinComma rest

/-- `startsWithL pat l` is true when `pat` is an initial segment of `l`. -/
def startsWithL : List Char → List Char → Bool
  | [], _ => true
  | _ :: _, [] => false
  | a :: as, b :: bs => a = b && startsWithL as bs

/-- `hasSubL pat l` is true when `pat` occurs contiguously inside `l`. -/
def hasSubL (pat : List Char) : List Char → Bool
  | [] => startsWithL pat []
  | c :: t => startsWithL pat (c :: t) || hasSubL pat t

/-- The error message `m` mentions the text `v` (contiguous substring). -/
def mentions (m v : String) : Bool := hasSubL v.toList m.toList

/-- Left fold insertion preserving the order of earlier elements among ties:
`a` is placed before the first `b` with `lt a b`. -/
def insertStable (lt : α → α → Bool) (a : α) : List α → List α
  | [] => [a]
  | b :: t => if lt a b then a :: b :: t else b :: insertStable lt a t

/-- Stable sort by the strict comparison `lt` (models Python `sorted` /
pandas sorting, which are deterministic on a given input). -/
def sortL (lt : α → α → Bool) (l : List α) : List α :=
  l.foldl (fun acc a => insertStable lt a acc) []

/-- First-occurrence deduplication (pandas `Series.unique`). -/
def dedupL [DecidableEq α] (l : List α) : List α :=
  l.foldl (fun acc a => if a ∈ acc then acc else acc ++ [a]) []

/-- Python `int(q)` on a rational: truncation toward zero. -/
def ratTrunc (q : ℚ) : Int :=
  if 0 ≤ q then Int.ofNat (q.num.toNat / q.den) else -(Int.ofNat ((-q.num).toNat / q.den))

/-- Python `l[i:]` for an integer index `i` (negative indices count from the
end; `l[0:]` and `l[-0:]` are the whole list). -/
def pySliceFrom (i : Int) (l : List α) : List α :=
  if 0 ≤ i then l.drop i.toNat else l.drop (l.length - (-i).toNat)

/-! ## Data model -/

/-- One row of the respondent (data) table.  The four required columns are
modelled as fields, so the required-column check of `validate_data_file`
is vacuous here; a missing (NaN) `Revenue Range` cell is `none`. -/
structure DRow where
  responseid : Int
  Country : String
  Industry : String
  RevenueRange : Option String
  deriving DecidableEq, Repr

/-- A cell of the raw universe (quota) table as read from the file:
a number, a text value, or missing (NaN). -/
inductive CellV where
  | num (q : ℚ)
  | str (s : String)
  | na
  deriving DecidableEq, Repr

/-- One row of the raw universe table: the two key columns plus the cells of
the revenue-range columns, keyed by column name. -/
structure URowRaw where
  Country : String
  Industry : String
  cells : List (String × CellV)
  deriving DecidableEq, Repr

/-- The raw universe table: its column list (pandas `df.columns`) and rows. -/
structure UTable where
  cols : List String
  rows : List URowRaw
  deriving DecidableEq, Repr

/-- The cell of row `r` in column `c` (missing cells read as NaN). -/
def URowRaw.cell (r : URowRaw) (c : String) : CellV :=
  (r.cells.lookup c).getD CellV.na

/-- pandas `is_numeric_dtype` for a column: the column read from a file has a
numeric dtype exactly when no cell holds text (a column of numbers with NaN
holes is `float64`, hence numeric; any text cell makes it `object`). -/
def colIsNumeric (rows : List URowRaw) (c : String) : Bool :=
  rows.all fun r => match r.cell c with
    | CellV.str _ => false
    | _ => true

/-! ## Validators (`validate_data_file`, `validate_universe_file`) -/

/-- The message of line 28 of the source. -/
def invalidRangesMsg (invalid accepted : List String) : String :=
  "Data file contains invalid Revenue Range values: " ++ joinComma invalid ++
    ". Expected values are: " ++ joinComma accepted

/-- Lines 25–26: the distinct non-missing `Revenue Range` values
(`dropna().unique()`, first-occurrence order) that are not accepted names. -/
def invalidRangeValues (rows : List DRow) (revenue_ranges : List String) :
    List String :=
  (dedupL (rows.filterMap (fun r => r.RevenueRange))).filter
    (fun v => v ∉ revenue_ranges)

/-- `validate_data_file(df, revenue_ranges)` (lines 18–28): every non-missing
`Revenue Range` value must be one of the accepted names; the error lists every
distinct offending value and all accepted names.  The required-column check of
lines 19–22 is vacuous on typed rows. -/
def validate_data_file (rows : List DRow) (revenue_ranges : List String) :
    Except String Unit :=
  if (invalidRangeValues rows revenue_ranges).isEmpty then Except.ok ()
  else Except.error (invalidRangesMsg (invalidRangeValues rows revenue_ranges) revenue_ranges)

/-- The message of line 45 of the source. -/
def nonNumericMsg (c : String) : String :=
  "Universe file column '" ++ c ++ "' must contain numeric values."

/-- The revenue-range column names: all columns except the two key columns
(line 38 of the source). -/
def revenueRangeCols (cols : List String) : List String :=
  cols.filter (fun c => c ∉ (["Industry", "Country"] : List String))

/-- Lines 32–33: the required key columns absent from the universe table.
The numeric loop of lines 43–45 raises at the FIRST non-numeric column, so
`validate_universe_file` below uses `find?` to mirror the `for`/`raise`. -/
def missingUniverseCols (cols : List String) : List String :=
  (["Industry", "Country"] : List String).filter (fun c => c ∉ cols)

/-- `validate_universe_file(df)` (lines 31–47), built from the pieces above;
the source's control flow (missing columns, then an empty revenue-range
list, then the per-column numeric check) is mirrored branch for branch. -/
def validate_universe_file (t : UTable) : Except String (List String) :=
  if ¬ (missingUniverseCols t.cols).isEmpty then
    Except.error
      ("Universe file is missing required columns: " ++
        joinComma (missingUniverseCols t.cols))
  else if (revenueRangeCols t.cols).isEmpty then
    Except.error "Universe file must have at least one revenue range column (e.g., 'Less than 250M', '250M to 500M')."
  else
    match (revenueRangeCols t.cols).find? (fun c => ¬ colIsNumeric t.rows c) with
    | some c => Except.error (nonNumericMsg c)
    | none => Except.ok (revenueRangeCols t.cols)

/-! ## `process_files` (lines 50–120)

`process_files` receives tables that already passed validation, so every
revenue-range cell of the universe table is numeric or NaN; its rows are
therefore modelled with `Option ℚ` cells. -/

/-- One row of the validated universe table as consumed by `process_files`:
revenue-range cells are numbers or NaN. -/
structure URow where
  Country : String
  Industry : String
  cells : List (String × Option ℚ)
  deriving DecidableEq, Repr

/-- The cell of `u` in revenue-range column `c` (NaN when absent). -/
def URow.cell (u : URow) (c : String) : Option ℚ :=
  (u.cells.lookup c).getD none

/-- A segment key `(Country, Industry, Revenue Range)`. -/
abbrev SegKey := String × String × String

/-- Strict lexicographic order on segment keys (pandas `groupby(sort=True)`
orders the groups by their key tuple). -/
def keyLt (a b : SegKey) : Bool :=
  decide (a.1 < b.1) ||
    (a.1 = b.1 &&
      (decide (a.2.1 < b.2.1) || (a.2.1 = b.2.1 && decide (a.2.2 < b.2.2))))

/-- One row of the grouped data (step 1): the segment key, the group size and
the ascending-sorted list of the group's response ids. -/
structure GRow where
  Country : String
  Industry : String
  RevenueRange : String
  count : Nat
  response_ids : List Int
  deriving DecidableEq, Repr

/-- The segment keys observed in the data, in group order.  pandas `groupby`
drops rows whose key holds NaN, so rows with a missing `Revenue Range` are
excluded; the distinct keys are then sorted by key tuple. -/
def groupKeys (rows : List DRow) : List SegKey :=
  sortL keyLt
    (dedupL (rows.filterMap (fun r => r.RevenueRange.map (fun rr => (r.Country, r.Industry, rr)))))

/-- The data rows of the group with key `k`, in original order. -/
def groupRows (rows : List DRow) (k : SegKey) : List DRow :=
  rows.filter (fun r =>
    r.Country = k.1 && r.Industry = k.2.1 && r.RevenueRange = some k.2.2)

/-- Step 1 (lines 53–56): `groupby` + `size` + `sorted(list(x))` per group. -/
def groupedOf (rows : List DRow) : List GRow :=
  (groupKeys rows).map fun k =>
    { Country := k.1, Industry := k.2.1, RevenueRange := k.2.2
      count := (groupRows rows k).length
      response_ids :=
        sortL (fun a b => decide (a < b)) ((groupRows rows k).map (fun r => r.responseid)) }

/-- One row of the melted (long-form) universe table. -/
structure MRow where
  Country : String
  Industry : String
  RevenueRange : String
  quota : Option ℚ
  deriving DecidableEq, Repr

/-- Step 2 (lines 59–64): `pd.melt` produces, for each value column in
`revenue_ranges` order, one output row per input row; NaN cells are kept. -/
def meltOf (univ : List URow) (revenue_ranges : List String) : List MRow :=
  revenue_ranges.flatMap fun rr =>
    univ.map fun u =>
      { Country := u.Country, Industry := u.Industry, RevenueRange := rr
        quota := u.cell rr }

/-- One row of the merged reconciliation (after step 4): the grouped fields
plus the joined quota and the derived excess and fulfillment columns
(`none` models NaN). -/
structure RRow where
  Country : String
  Industry : String
  RevenueRange : String
  count : Nat
  response_ids : List Int
  quota : Option ℚ
  excess : Option ℚ
  fulfillment : Option ℚ
  deriving DecidableEq, Repr

/-- Line 76: `(count / quota * 100).clip(upper=100)` under pandas float
semantics: NaN quota gives NaN; zero quota with a positive count gives
`inf`, clipped to 100; zero quota with zero count gives NaN. -/
def fulfillCalc (count : Nat) : Option ℚ → Option ℚ
  | none => none
  | some q =>
    if q = 0 then (if count = 0 then none else some 100)
    else some (min 100 ((count : ℚ) / q * 100))

/-- The reconciled row built from grouped row `g` and joined quota `q`
(lines 74–76; `excess = (count - quota).clip(lower=0)`, NaN propagating). -/
def finishRow (g : GRow) (q : Option ℚ) : RRow :=
  { Country := g.Country, Industry := g.Industry, RevenueRange := g.RevenueRange
    count := g.count, response_ids := g.response_ids, quota := q
    excess := q.map (fun qq => max 0 ((g.count : ℚ) - qq))
    fulfillment := fulfillCalc g.count q }

/-- The melted rows matching the key of grouped row `g`. -/
def matchesOf (melted : List MRow) (g : GRow) : List MRow :=
  melted.filter (fun m =>
    m.Country = g.Country && m.Industry = g.Industry && m.RevenueRange = g.RevenueRange)

/-- Steps 3–4 (lines 67–76) for one grouped row: a left join keeps the row
with a NaN quota when nothing matches, and fans out over all matches. -/
def mergeRow (melted : List MRow) (g : GRow) : List RRow :=
  match matchesOf melted g with
  | [] => [finishRow g none]
  | ms => ms.map (fun m => finishRow g m.quota)

/-- The merged reconciliation with excess and fulfillment columns. -/
def mergedOf (data : List DRow) (univ : List URow) (revenue_ranges : List String) :
    List RRow :=
  (groupedOf data).flatMap (mergeRow (meltOf univ revenue_ranges))

/-- One emitted Excess Respondent Row (the dict of lines 84–92). -/
structure ERow where
  Country : String
  Industry : String
  RevenueRange : String
  Quota : Option ℚ
  Count : Nat
  Excess : ℚ
  ResponseId : Int
  deriving DecidableEq, Repr

/-- Step 5 (lines 79–92) for one merged row: when `excess > 0` (false for
NaN), take `response_ids[-int(excess):]` and emit one row per id. -/
def rowExcessRows (r : RRow) : List ERow :=
  match r.excess with
  | none => []
  | some e =>
    if 0 < e then
      (pySliceFrom (-(ratTrunc e)) r.response_ids).map fun i =>
        { Country := r.Country, Industry := r.Industry, RevenueRange := r.RevenueRange
          Quota := r.quota, Count := r.count, Excess := e, ResponseId := i }
    else []

/-- The excess-respondents output, in merged row order (`iterrows`). -/
def excessOf (data : List DRow) (univ : List URow) (revenue_ranges : List String) :
    List ERow :=
  (mergedOf data univ revenue_ranges).flatMap rowExcessRows

/-- One row of the fulfillment report (after the rename of lines 111–115). -/
structure FRow where
  Country : String
  Industry : String
  RevenueRange : String
  Count : Nat
  Quota : ℚ
  FulfillmentPct : Option ℚ
  deriving DecidableEq, Repr

/-- Python `round(x, 2)` on an exact rational: round half to even. -/
def round2 (x : ℚ) : ℚ :=
  let y := x * 100
  let f : Int := y.floor
  let r := y - (f : ℚ)
  let n : Int :=
    if r < 1 / 2 then f
    else if 1 / 2 < r then f + 1
    else if f % 2 = 0 then f else f + 1
  (n : ℚ) / 100

/-- Line 96–97 for one merged row: rows with a NaN quota are dropped, the
kept rows carry the rounded fulfillment percentage. -/
def rowFulfill (r : RRow) : Option FRow :=
  r.quota.map fun q =>
    { Country := r.Country, Industry := r.Industry, RevenueRange := r.RevenueRange
      Count := r.count, Quota := q, FulfillmentPct := r.fulfillment.map round2 }

/-- Strict before-relation of the fulfillment sort (lines 99–102): descending
by percentage, NaN last. -/
def fulfillBefore (a b : FRow) : Bool :=
  match a.FulfillmentPct, b.FulfillmentPct with
  | some x, some y => decide (y < x)
  | some _, none => true
  | none, _ => false

/-- Step 6 (lines 96–102): filter out NaN quotas, round, sort descending. -/
def fulfillOf (data : List DRow) (univ : List URow) (revenue_ranges : List String) :
    List FRow :=
  sortL fulfillBefore ((mergedOf data univ revenue_ranges).filterMap rowFulfill)

/-- The columns required of the fulfillment output (line 105). -/
def requiredFulfillCols : List String :=
  ["Country", "Industry", "Revenue Range", "count", "quota", "fulfillment_percentage"]

/-- The columns `fulfillment_df` actually has at line 106: those of the
grouped data, plus the joined and derived columns. -/
def fulfillmentCols : List String :=
  ["Country", "Industry", "Revenue Range", "count", "response_ids", "quota",
    "excess", "fulfillment_percentage"]

/-- Line 106: the required columns absent from `cols`. -/
def missingFulfillCols (cols : List String) : List String :=
  requiredFulfillCols.filter (fun c => c ∉ cols)

/-- The message of line 108. -/
def internalMsg (missing : List String) : String :=
  "Internal error: Missing columns in fulfillment DataFrame: " ++ joinComma missing

/-- Lines 119–120: any exception raised inside `process_files` is re-raised
wrapped in this processing-error message. -/
def wrapProcessing (s : String) : String := "Error processing files: " ++ s

/-- Lines 104–108 applied to a column list: `none` when all required columns
are present, otherwise the internal-error message. -/
def fulfillColsCheck (cols : List String) : Option String :=
  match missingFulfillCols cols with
  | [] => none
  | missing => some (internalMsg missing)

/-- `process_files(data_df, universe_df, revenue_ranges)` (lines 50–120):
the whole pipeline; the defensive column check of lines 104–108 runs on the
actual columns of the fulfillment frame, and a failure there is re-raised
through the wrapper of lines 119–120. -/
def process_files (data : List DRow) (univ : List URow)
    (revenue_ranges : List String) : Except String (List ERow × List FRow) :=
  match fulfillColsCheck fulfillmentCols with
  | some m => Except.error (wrapProcessing m)
  | none =>
    Except.ok (excessOf data univ revenue_ranges, fulfillOf data univ revenue_ranges)

/-! ## Decidability of result equality -/

instance instDecEqExcept {ε α : Type _} [DecidableEq ε] [DecidableEq α] :
    DecidableEq (Except ε α)
  | Except.error a, Except.error b =>
    match decEq a b with
    | isTrue h => isTrue (h ▸ rfl)
    | isFalse h => isFalse fun hh => h (Except.error.inj hh)
  | Except.error _, Except.ok _ => isFalse Except.noConfusion
  | Except.ok _, Except.error _ => isFalse Except.noConfusion
  | Except.ok a, Except.ok b =>
    match decEq a b with
    | isTrue h => isTrue (h ▸ rfl)
    | isFalse h => isFalse fun hh => h (Except.ok.inj hh)

/-! ## Helper lemmas on the list and string utilities -/

theorem insertStable_length (lt : α → α → Bool) (a : α) (l : List α) :
    (insertStable lt a l).length = l.length + 1 := by
  induction l with
  | nil => rfl
  | cons b t ih =>
    simp only [insertStable]
    split
    · simp
    · simp [ih]

theorem sortL_length (lt : α → α → Bool) (l : List α) :
    (sortL lt l).length = l.length := by
  suffices h : ∀ acc : List α,
      (l.foldl (fun acc a => insertStable lt a acc) acc).length = acc.length + l.length by
    simpa using h []
  induction l with
  | nil => intro acc; simp
  | cons a t ih =>
    intro acc
    simp only [List.foldl_cons]
    rw [ih, insertStable_length, List.length_cons]
    omega

theorem mem_insertStable (lt : α → α → Bool) (a b : α) (l : List α) :
    b ∈ insertStable lt a l ↔ b = a ∨ b ∈ l := by
  induction l with
  | nil => simp [insertStable]
  | cons c t ih =>
    simp only [insertStable]
    split
    · simp
    · simp only [List.mem_cons, ih]
      tauto

theorem mem_sortL (lt : α → α → Bool) (b : α) (l : List α) :
    b ∈ sortL lt l ↔ b ∈ l := by
  suffices h : ∀ acc : List α,
      (b ∈ l.foldl (fun acc a => insertStable lt a acc) acc ↔ b ∈ acc ∨ b ∈ l) by
    simpa using h []
  induction l with
  | nil => intro acc; simp
  | cons a t ih =>
    intro acc
    simp only [List.foldl_cons, ih, mem_insertStable, List.mem_cons]
    tauto

theorem mem_dedupL [DecidableEq α] (a : α) (l : List α) :
    a ∈ dedupL l ↔ a ∈ l := by
  suffices h : ∀ acc : List α,
      (a ∈ l.foldl (fun acc x => if x ∈ acc then acc else acc ++ [x]) acc ↔
        a ∈ acc ∨ a ∈ l) by
    simpa [dedupL] using h []
  induction l with
  | nil => intro acc; simp
  | cons x t ih =>
    intro acc
    simp only [List.foldl_cons]
    by_cases hx : x ∈ acc
    · simp only [if_pos hx, ih, List.mem_cons]
      constructor
      · rintro (h | h)
        · exact Or.inl h
        · exact Or.inr (Or.inr h)
      · rintro (h | rfl | h)
        · exact Or.inl h
        · exact Or.inl hx
        · exact Or.inr h
    · simp only [if_neg hx, ih, List.mem_append, List.mem_singleton, List.mem_cons]
      tauto

theorem filterMap_filter_none {p : α → Bool} {f : α → Option β}
    (hf : ∀ a, p a = false → f a = none) (l : List α) :
    (l.filter p).filterMap f = l.filterMap f := by
  induction l with
  | nil => rfl
  | cons a t ih =>
    by_cases hp : p a = true
    · rw [List.filter_cons_of_pos hp, List.filterMap_cons, List.filterMap_cons, ih]
    · rw [List.filter_cons_of_neg hp, List.filterMap_cons,
        hf a (Bool.eq_false_iff.mpr hp), ih]

theorem filter_filter_subsume {p q : α → Bool}
    (hpq : ∀ a, q a = true → p a = true) (l : List α) :
    (l.filter p).filter q = l.filter q := by
  induction l with
  | nil => rfl
  | cons a t ih =>
    by_cases hq : q a = true
    · rw [List.filter_cons_of_pos (hpq a hq), List.filter_cons_of_pos hq,
        List.filter_cons_of_pos hq, ih]
    · by_cases hp : p a = true
      · rw [List.filter_cons_of_pos hp, List.filter_cons_of_neg hq,
        List.filter_cons_of_neg hq, ih]
      · rw [List.filter_cons_of_neg hp, List.filter_cons_of_neg hq, ih]

theorem startsWithL_append (p t : List Char) : startsWithL p (p ++ t) = true := by
  induction p with
  | nil => rfl
  | cons a as ih => simp [startsWithL, ih]

theorem startsWithL_extend {p s : List Char} (t : List Char)
    (h : startsWithL p s = true) : startsWithL p (s ++ t) = true := by
  induction p generalizing s with
  | nil => rfl
  | cons a as ih =>
    cases s with
    | nil => simp [startsWithL] at h
    | cons b bs =>
      simp only [startsWithL, Bool.and_eq_true, decide_eq_true_eq] at h
      simp only [List.cons_append, startsWithL, Bool.and_eq_true, decide_eq_true_eq]
      exact ⟨h.1, ih h.2⟩

theorem hasSubL_nil_pat (s : List Char) : hasSubL [] s = true := by
  cases s <;> simp [hasSubL, startsWithL]

theorem hasSubL_of_startsWith {p s : List Char} (h : startsWithL p s = true) :
    hasSubL p s = true := by
  cases s with
  | nil => simpa [hasSubL] using h
  | cons c t => simp [hasSubL, h]

theorem hasSubL_append_right {p t : List Char} (s : List Char)
    (h : hasSubL p t = true) : hasSubL p (s ++ t) = true := by
  induction s with
  | nil => simpa using h
  | cons c cs ih => simp [hasSubL, ih]

theorem hasSubL_append_left {p s : List Char} (t : List Char)
    (h : hasSubL p s = true) : hasSubL p (s ++ t) = true := by
  induction s with
  | nil =>
    have hp : p = [] := by
      cases p with
      | nil => rfl
      | cons a as => simp [hasSubL, startsWithL] at h
    subst hp
    exact hasSubL_nil_pat t
  | cons c cs ih =>
    simp only [hasSubL, Bool.or_eq_true] at h
    rcases h with h | h
    · simp only [List.cons_append, hasSubL, Bool.or_eq_true]
      exact Or.inl (startsWithL_extend t h)
    · simp only [List.cons_append, hasSubL, Bool.or_eq_true]
      exact Or.inr (ih h)

theorem strToList_append (a b : String) : (a ++ b).toList = a.toList ++ b.toList := by
  simp [String.toList]

theorem mentions_append_left {a v : String} (b : String)
    (h : mentions a v = true) : mentions (a ++ b) v = true := by
  unfold mentions at h ⊢
  rw [strToList_append]
  exact hasSubL_append_left _ h

theorem mentions_append_right {b v : String} (a : String)
    (h : mentions b v = true) : mentions (a ++ b) v = true := by
  unfold mentions at h ⊢
  rw [strToList_append]
  exact hasSubL_append_right _ h

theorem mentions_self (v : String) : mentions v v = true := by
  unfold mentions
  apply hasSubL_of_startsWith
  have h := startsWithL_append v.toList []
  rwa [List.append_nil] at h

theorem mentions_joinComma {v : String} {l : List String} (h : v ∈ l) :
    mentions (joinComma l) v = true := by
  induction l with
  | nil => cases h
  | cons s rest ih =>
    cases rest with
    | nil =>
      rcases List.mem_singleton.mp h with rfl
      exact mentions_self v
    | cons s2 r2 =>
      rcases List.mem_cons.mp h with rfl | h2
      · show mentions (v ++ ", " ++ joinComma (s2 :: r2)) v = true
        exact mentions_append_left _ (mentions_append_left _ (mentions_self v))
      · show mentions (s ++ ", " ++ joinComma (s2 :: r2)) v = true
        exact mentions_append_right _ (ih h2)

/-! ## Structural lemmas about the pipeline -/

/-- The defensive column check of lines 104–108 always passes on the columns
the pipeline actually produces, so `process_files` always returns its two
outputs (the embedded pipeline is total: no exception is raised). -/
theorem process_files_eq (d : List DRow) (u : List URow) (r : List String) :
    process_files d u r = Except.ok (excessOf d u r, fulfillOf d u r) := rfl

theorem mem_groupedOf {g : GRow} {rows : List DRow} (h : g ∈ groupedOf rows) :
    g.response_ids.length = g.count ∧
      (g.Country, g.Industry, g.RevenueRange) ∈ groupKeys rows := by
  unfold groupedOf at h
  rcases List.mem_map.mp h with ⟨k, hk, rfl⟩
  refine ⟨by simp [sortL_length], ?_⟩
  rcases k with ⟨a, b, c⟩
  simpa using hk

theorem mem_mergedOf {row : RRow} {d : List DRow} {u : List URow} {r : List String}
    (h : row ∈ mergedOf d u r) :
    ∃ g ∈ groupedOf d, ∃ q, row = finishRow g q := by
  unfold mergedOf at h
  rcases List.mem_flatMap.mp h with ⟨g, hg, hrow⟩
  refine ⟨g, hg, ?_⟩
  unfold mergeRow at hrow
  rcases hms : matchesOf (meltOf u r) g with _ | ⟨m, ms⟩
  · rw [hms] at hrow
    simp only [List.mem_singleton] at hrow
    exact ⟨none, hrow⟩
  · rw [hms] at hrow
    rcases List.mem_map.mp hrow with ⟨m', _, rfl⟩
    exact ⟨m'.quota, rfl⟩

/-- Every merged row carries the derived columns of step 4 and a sorted id
list of length `count`. -/
theorem mergedRow_spec {row : RRow} {d : List DRow} {u : List URow} {r : List String}
    (h : row ∈ mergedOf d u r) :
    row.excess = row.quota.map (fun q => max 0 ((row.count : ℚ) - q)) ∧
      row.fulfillment = fulfillCalc row.count row.quota ∧
      row.response_ids.length = row.count := by
  rcases mem_mergedOf h with ⟨g, hg, q, rfl⟩
  exact ⟨rfl, rfl, (mem_groupedOf hg).1⟩

/-- A merged row whose key matches no melted row has a NaN quota (the `left`
join of line 67–71 kept it with no partner). -/
theorem mergedOf_key_unmatched {d : List DRow} {u : List URow} {r : List String}
    {k : SegKey}
    (hk : ∀ m ∈ meltOf u r, (m.Country, m.Industry, m.RevenueRange) ≠ k)
    {row : RRow} (hrow : row ∈ mergedOf d u r)
    (hkey : (row.Country, row.Industry, row.RevenueRange) = k) :
    row.quota = none := by
  unfold mergedOf at hrow
  rcases List.mem_flatMap.mp hrow with ⟨g, _, hr⟩
  unfold mergeRow at hr
  rcases hms : matchesOf (meltOf u r) g with _ | ⟨m, ms⟩
  · rw [hms] at hr
    simp only [List.mem_singleton] at hr
    subst hr
    rfl
  · rw [hms] at hr
    rcases List.mem_map.mp hr with ⟨m', hm', rfl⟩
    exfalso
    have hm'' : m' ∈ matchesOf (meltOf u r) g := by rw [hms]; exact hm'
    unfold matchesOf at hm''
    rcases List.mem_filter.mp hm'' with ⟨hmelt, hpred⟩
    simp only [Bool.and_eq_true, decide_eq_true_eq] at hpred
    apply hk m' hmelt
    rw [hpred.1.1, hpred.1.2, hpred.2]
    exact hkey

/-- Every emitted excess row copies its merged row's segment key. -/
theorem mem_rowExcessRows {e : ERow} {row : RRow} (h : e ∈ rowExcessRows row) :
    e.Country = row.Country ∧ e.Industry = row.Industry ∧
      e.RevenueRange = row.RevenueRange ∧ e.Quota = row.quota ∧
      e.Count = row.count ∧ row.excess = some e.Excess := by
  rcases he : row.excess with _ | ex
  · simp [rowExcessRows, he] at h
  · simp only [rowExcessRows, he] at h
    split at h
    · rcases List.mem_map.mp h with ⟨i, _, rfl⟩
      exact ⟨rfl, rfl, rfl, rfl, rfl, rfl⟩
    · cases h

/-! ## Concrete example tables -/

/-- Scenario A respondents: ids 1, 2, 3, all in segment (USA, Tech, 1B+). -/
def dataScenA : List DRow :=
  [⟨1, "USA", "Tech", some "1B+"⟩, ⟨2, "USA", "Tech", some "1B+"⟩,
    ⟨3, "USA", "Tech", some "1B+"⟩]

/-- Scenario A quota table: one row (USA, Tech) with column 1B+ equal to 2. -/
def univScenA : List URow := [⟨"USA", "Tech", [("1B+", some 2)]⟩]

/-- Two respondents in segment (USA, Tech, 1B+). -/
def dataFrac : List DRow :=
  [⟨1, "USA", "Tech", some "1B+"⟩, ⟨2, "USA", "Tech", some "1B+"⟩]

/-- A quota table whose 1B+ quota for (USA, Tech) is the valid numeric value
1.5, making the segment's excess the fraction 1/2. -/
def univFrac : List URow := [⟨"USA", "Tech", [("1B+", some (3 / 2))]⟩]

/-- One respondent in segment (USA, Tech, 1B+). -/
def dataZero : List DRow := [⟨1, "USA", "Tech", some "1B+"⟩]

/-- A quota table whose 1B+ quota for (USA, Tech) is zero. -/
def univZero : List URow := [⟨"USA", "Tech", [("1B+", some 0)]⟩]

/-! ## Claims -/

/-- C3: on the concrete Scenario A input (three respondents with ids 1, 2, 3
in segment (USA, Tech, 1B+); quota row (USA, Tech) with 1B+ = 2),
`process_files` returns exactly one excess row — for respondent id 3, with
Quota = 2, Count = 3, Excess = 1 — and exactly one fulfillment row
(USA, Tech, 1B+) with Count = 3, Quota = 2 and fulfillment percentage 100. -/
theorem c3_scenario_a :
    process_files dataScenA univScenA ["1B+"] =
      Except.ok
        ([⟨"USA", "Tech", "1B+", some 2, 3, 1, 3⟩],
          [⟨"USA", "Tech", "1B+", 3, 2, some 100⟩]) := by
  with_unfolding_all decide

/-- C9: `process_files` is deterministic — two invocations on equal inputs
return identical outputs, the excess rows in the same order and an identical
fulfillment table (the embedded pipeline is a pure function of its inputs,
with a deterministic sort; there is no other source of nondeterminism). -/
theorem c9_deterministic (d d' : List DRow) (u u' : List URow) (r r' : List String)
    (hd : d = d') (hu : u = u') (hr : r = r') :
    process_files d u r = process_files d' u' r' ∧
      excessOf d u r = excessOf d' u' r' ∧
      fulfillOf d u r = fulfillOf d' u' r' := by
  subst hd; subst hu; subst hr
  exact ⟨rfl, rfl, rfl⟩

theorem c9_deterministic_witness :
    process_files dataScenA univScenA ["1B+"] = process_files dataScenA univScenA ["1B+"] ∧
      excessOf dataScenA univScenA ["1B+"] = excessOf dataScenA univScenA ["1B+"] ∧
      fulfillOf dataScenA univScenA ["1B+"] = fulfillOf dataScenA univScenA ["1B+"] :=
  c9_deterministic dataScenA dataScenA univScenA univScenA ["1B+"] ["1B+"] rfl rfl rfl

/-- C2 counterexample: a segment whose quota is zero (not null) is NOT
excluded from the fulfillment report.  With one respondent and quota 0, the
pandas ratio `1 / 0 * 100` is infinite and `clip(upper=100)` turns it into
100.0, `quota.notna()` keeps the row, and the report shows the segment with
Quota = 0 and fulfillment 100 — the claim says it should contribute no row. -/
theorem c2_counterexample :
    process_files dataZero univZero ["1B+"] =
      Except.ok
        ([⟨"USA", "Tech", "1B+", some 0, 1, 1, 1⟩],
          [⟨"USA", "Tech", "1B+", 1, 0, some 100⟩]) ∧
      (fulfillOf dataZero univZero ["1B+"]).length ≠ 0 := by
  constructor
  · with_unfolding_all decide
  · with_unfolding_all decide

/-- C2 amended: only segments whose quota is null (absent from the quota
table, or a NaN cell) are treated as undefined: they contribute no
fulfillment row and no excess rows, and no exception is raised.  A segment
whose quota is ZERO is not excluded: with a positive count it contributes a
fulfillment row whose percentage is the clipped value 100 (standing in for
the infinite ratio), never a null or infinite value. -/
theorem c2_amended (d : List DRow) (u : List URow) (r : List String) (row : RRow)
    (h : row ∈ mergedOf d u r) :
    process_files d u r = Except.ok (excessOf d u r, fulfillOf d u r) ∧
      (row.quota = none → rowFulfill row = none ∧ rowExcessRows row = []) ∧
      (row.quota = some 0 → 0 < row.count →
        rowFulfill row =
          some ⟨row.Country, row.Industry, row.RevenueRange, row.count, 0, some 100⟩) := by
  obtain ⟨hex, hful, _⟩ := mergedRow_spec h
  refine ⟨process_files_eq d u r, ?_, ?_⟩
  · intro hq
    constructor
    · unfold rowFulfill
      rw [hq]
      rfl
    · unfold rowExcessRows
      rw [hex, hq]
      rfl
  · intro hq hc
    have hne : row.count ≠ 0 := Nat.pos_iff_ne_zero.mp hc
    have hfc : fulfillCalc row.count (some 0) = some 100 := by
      simp [fulfillCalc, hne]
    have h100 : round2 100 = 100 := by with_unfolding_all decide
    simp [rowFulfill, hq, hful, hfc, h100]

theorem c2_amended_witness :
    (⟨"USA", "Tech", "1B+", 1, [1], some 0, some 1, some 100⟩ : RRow) ∈
        mergedOf dataZero univZero ["1B+"] ∧
      process_files dataZero univZero ["1B+"] =
        Except.ok (excessOf dataZero univZero ["1B+"], fulfillOf dataZero univZero ["1B+"]) ∧
      rowFulfill ⟨"USA", "Tech", "1B+", 1, [1], some 0, some 1, some 100⟩ =
        some ⟨"USA", "Tech", "1B+", 1, 0, some 100⟩ :=
  ⟨by with_unfolding_all decide,
    (c2_amended dataZero univZero ["1B+"]
      ⟨"USA", "Tech", "1B+", 1, [1], some 0, some 1, some 100⟩
      (by with_unfolding_all decide)).1,
    (c2_amended dataZero univZero ["1B+"]
      ⟨"USA", "Tech", "1B+", 1, [1], some 0, some 1, some 100⟩
      (by with_unfolding_all decide)).2.2 rfl (by decide)⟩

/-- A quota table with no row for segment (USA, Tech, 1B+). -/
def univUnmatched : List URow := [⟨"USA", "Retail", [("1B+", some 5)]⟩]

/-- C1 counterexample: with two respondents and the valid numeric quota 1.5,
the merged segment has excess k = 1/2 > 0, but `int(0.5) = 0` makes the
slice `response_ids[-0:]` the WHOLE id list: 2 rows are emitted (ids 1 and
2), not "exactly k" rows, and not a trailing slice of size k. -/
theorem c1_counterexample :
    (mergedOf dataFrac univFrac ["1B+"]).map
        (fun row => (row.excess, ((rowExcessRows row).length : ℚ),
          (rowExcessRows row).map (fun e => e.ResponseId))) =
      [(some (1 / 2), 2, [1, 2])] ∧
      (0 : ℚ) < 1 / 2 ∧ ((2 : ℚ) ≠ 1 / 2) := by
  refine ⟨by with_unfolding_all decide, by norm_num, by norm_num⟩

/-- C1 amended: for every merged segment row whose excess `k` is a POSITIVE
INTEGER no larger than the segment's count (which always holds when the
quota is a non-negative integer), exactly `k` Excess Respondent Rows are
emitted for that row, their ids are precisely the trailing `k` entries of
the segment's ascending-sorted `response_ids` list, and each row carries the
segment's Country, Industry, Revenue Range, Quota, Count and Excess; the
rows appear as one contiguous block of the excess output. -/
theorem c1_amended (d : List DRow) (u : List URow) (r : List String)
    (row : RRow) (k : ℚ)
    (hrow : row ∈ mergedOf d u r) (he : row.excess = some k) (hpos : 0 < k)
    (hden : k.den = 1) (hle : k ≤ (row.count : ℚ)) :
    ((rowExcessRows row).length : ℚ) = k ∧
      (rowExcessRows row).map (fun e => e.ResponseId) =
        row.response_ids.drop (row.count - k.num.toNat) ∧
      (∀ e ∈ rowExcessRows row,
        e.Country = row.Country ∧ e.Industry = row.Industry ∧
          e.RevenueRange = row.RevenueRange ∧ e.Quota = row.quota ∧
          e.Count = row.count ∧ e.Excess = k) ∧
      ∃ pre post, excessOf d u r = pre ++ rowExcessRows row ++ post := by
  have hknum : (k.num : ℚ) = k := (Rat.den_eq_one_iff k).mp hden
  have hknn : (0 : ℤ) ≤ k.num := Rat.num_nonneg.mpr hpos.le
  have hkpos : (0 : ℤ) < k.num := Rat.num_pos.mpr hpos
  have hlen := (mergedRow_spec hrow).2.2
  have hkle : k.num.toNat ≤ row.count := by
    rw [Int.toNat_le]
    exact_mod_cast hknum ▸ hle
  have htr : ratTrunc k = k.num := by
    unfold ratTrunc
    rw [if_pos hpos.le, hden]
    simp [Int.toNat_of_nonneg hknn]
  have hrows : rowExcessRows row =
      (row.response_ids.drop (row.count - k.num.toNat)).map fun i =>
        (⟨row.Country, row.Industry, row.RevenueRange, row.quota, row.count, k, i⟩ :
          ERow) := by
    simp only [rowExcessRows, he]
    rw [if_pos hpos]
    unfold pySliceFrom
    rw [htr]
    rw [if_neg (by omega : ¬ (0 : ℤ) ≤ -k.num)]
    rw [neg_neg, hlen]
  have hcast : ((k.num.toNat : ℚ)) = k := by
    rw [← hknum]
    exact_mod_cast congrArg (fun z : ℤ => (z : ℚ)) (Int.toNat_of_nonneg hknn)
  refine ⟨?_, ?_, ?_, ?_⟩
  · rw [hrows, List.length_map, List.length_drop]
    rw [(by omega : row.response_ids.length - (row.count - k.num.toNat) = k.num.toNat)]
    exact hcast
  · rw [hrows, List.map_map]
    have hcomp : ((fun e : ERow => e.ResponseId) ∘ fun i =>
        (⟨row.Country, row.Industry, row.RevenueRange, row.quota, row.count, k, i⟩ :
          ERow)) = fun i => i := rfl
    rw [hcomp, List.map_id']
  · intro e hemem
    rw [hrows] at hemem
    rcases List.mem_map.mp hemem with ⟨i, _, rfl⟩
    exact ⟨rfl, rfl, rfl, rfl, rfl, rfl⟩
  · rcases List.append_of_mem hrow with ⟨s, t, hst⟩
    refine ⟨s.flatMap rowExcessRows, t.flatMap rowExcessRows, ?_⟩
    unfold excessOf
    rw [hst, List.flatMap_append, List.flatMap_cons, List.append_assoc]

theorem c1_amended_witness :
    ((⟨"USA", "Tech", "1B+", 3, [1, 2, 3], some 2, some 1, some 100⟩ : RRow) ∈
          mergedOf dataScenA univScenA ["1B+"] ∧
        (0 : ℚ) < 1 ∧ (1 : ℚ).den = 1 ∧ (1 : ℚ) ≤ ((3 : ℕ) : ℚ)) ∧
      ((rowExcessRows
          (⟨"USA", "Tech", "1B+", 3, [1, 2, 3], some 2, some 1, some 100⟩ : RRow)).length :
        ℚ) = 1 :=
  ⟨⟨by with_unfolding_all decide, by norm_num, by norm_num, by norm_num⟩,
    (c1_amended dataScenA univScenA ["1B+"]
      ⟨"USA", "Tech", "1B+", 3, [1, 2, 3], some 2, some 1, some 100⟩ 1
      (by with_unfolding_all decide) rfl (by norm_num) (by norm_num) (by norm_num)).1⟩

/-- C4: a segment present in the respondent data but matching no row of the
reshaped (melted) quota table raises no exception — `process_files` still
returns its two outputs — and that segment contributes zero rows to the
excess-respondents output and zero rows to the fulfillment report. -/
theorem c4_unmatched_segment (d : List DRow) (u : List URow) (r : List String)
    (k : SegKey) (_hk1 : k ∈ groupKeys d)
    (hk2 : ∀ m ∈ meltOf u r, (m.Country, m.Industry, m.RevenueRange) ≠ k) :
    process_files d u r = Except.ok (excessOf d u r, fulfillOf d u r) ∧
      (∀ e ∈ excessOf d u r, (e.Country, e.Industry, e.RevenueRange) ≠ k) ∧
      (∀ f ∈ fulfillOf d u r, (f.Country, f.Industry, f.RevenueRange) ≠ k) := by
  refine ⟨process_files_eq d u r, ?_, ?_⟩
  · intro e hemem hkey
    unfold excessOf at hemem
    rcases List.mem_flatMap.mp hemem with ⟨row, hrow, he⟩
    obtain ⟨hC, hI, hR, _, _, hE⟩ := mem_rowExcessRows he
    have hrowkey : (row.Country, row.Industry, row.RevenueRange) = k := by
      rw [← hC, ← hI, ← hR]; exact hkey
    have hqn := mergedOf_key_unmatched hk2 hrow hrowkey
    have hexn : row.excess = none := by
      rw [(mergedRow_spec hrow).1, hqn, Option.map_none']
    rw [hexn] at hE
    cases hE
  · intro f hfmem hkey
    unfold fulfillOf at hfmem
    rw [mem_sortL] at hfmem
    rcases List.mem_filterMap.mp hfmem with ⟨row, hrow, hf⟩
    unfold rowFulfill at hf
    rcases hq : row.quota with _ | q
    · rw [hq] at hf; cases hf
    · rw [hq] at hf
      have hf' := Option.some.inj hf
      rw [← hf'] at hkey
      have := mergedOf_key_unmatched hk2 hrow hkey
      rw [hq] at this
      cases this

theorem c4_unmatched_segment_witness :
    (("USA", "Tech", "1B+") ∈ groupKeys dataZero ∧
        (∀ m ∈ meltOf univUnmatched ["1B+"],
          (m.Country, m.Industry, m.RevenueRange) ≠ ("USA", "Tech", "1B+"))) ∧
      process_files dataZero univUnmatched ["1B+"] =
        Except.ok (excessOf dataZero univUnmatched ["1B+"],
          fulfillOf dataZero univUnmatched ["1B+"]) :=
  ⟨⟨by decide, by with_unfolding_all decide⟩,
    (c4_unmatched_segment dataZero univUnmatched ["1B+"] ("USA", "Tech", "1B+")
      (by decide) (by with_unfolding_all decide)).1⟩

/-- C10: a respondent row with a missing (NaN) revenue range is invisible to
both validation and processing: `validate_data_file` returns the same result
with or without such rows (only non-missing values are checked), and
`process_files` returns identical outputs with or without them — they are
counted in no segment and appear in neither the excess output nor the
fulfillment report. -/
theorem c10_missing_revenue_invisible (rows : List DRow) (univ : List URow)
    (ranges : List String) :
    validate_data_file rows ranges =
        validate_data_file (rows.filter (fun r => r.RevenueRange.isSome)) ranges ∧
      process_files rows univ ranges =
        process_files (rows.filter (fun r => r.RevenueRange.isSome)) univ ranges := by
  have hval :
      (rows.filter (fun r => r.RevenueRange.isSome)).filterMap
          (fun r => r.RevenueRange) = rows.filterMap (fun r => r.RevenueRange) := by
    refine filterMap_filter_none (fun a ha => ?_) rows
    cases hr : a.RevenueRange with
    | none => rfl
    | some v => rw [hr] at ha; cases ha
  have hkeys : groupKeys (rows.filter (fun r => r.RevenueRange.isSome)) =
      groupKeys rows := by
    unfold groupKeys
    rw [filterMap_filter_none (fun a ha => ?_) rows]
    cases hr : a.RevenueRange with
    | none => rfl
    | some v => rw [hr] at ha; cases ha
  have hgrows : ∀ k : SegKey,
      groupRows (rows.filter (fun r => r.RevenueRange.isSome)) k =
        groupRows rows k := by
    intro k
    unfold groupRows
    refine filter_filter_subsume (fun a ha => ?_) rows
    simp only [Bool.and_eq_true, decide_eq_true_eq] at ha
    rw [ha.2]
    rfl
  have hg : groupedOf (rows.filter (fun r => r.RevenueRange.isSome)) =
      groupedOf rows := by
    unfold groupedOf
    rw [hkeys]
    exact List.map_congr_left fun k _ => by rw [hgrows k]
  have hval2 : invalidRangeValues (rows.filter (fun r => r.RevenueRange.isSome)) ranges =
      invalidRangeValues rows ranges := by
    unfold invalidRangeValues
    rw [hval]
  constructor
  · rw [validate_data_file, validate_data_file, hval2]
  · rw [process_files, process_files, excessOf, excessOf, fulfillOf, fulfillOf,
      mergedOf, mergedOf, hg]

/-- A universe table with TWO non-numeric revenue-range columns, A and B. -/
def univTwoBad : UTable :=
  ⟨["Industry", "Country", "A", "B"],
    [⟨"x", "y", [("A", CellV.str "N/A"), ("B", CellV.str "bad")]⟩]⟩

/-- C5 counterexample: with two offending columns A and B, the numeric loop
of lines 43–45 raises on the FIRST one it meets: the message names only
column A, and the equally offending column B is not mentioned — the check
does not collect all offending columns within the rule. -/
theorem c5_counterexample :
    validate_universe_file univTwoBad = Except.error (nonNumericMsg "A") ∧
      colIsNumeric univTwoBad.rows "B" = false ∧
      "B" ∈ revenueRangeCols univTwoBad.cols ∧
      mentions (nonNumericMsg "A") "B" = false := by
  refine ⟨by decide, by decide, by decide, by decide⟩

/-- C5 amended: when the universe table has its required key columns and at
least one revenue-range column, and some revenue-range column is
non-numeric, `validate_universe_file` fails with a schema error naming the
FIRST offending column in column order (not all of them). -/
theorem c5_amended (t : UTable) (c : String)
    (h1 : missingUniverseCols t.cols = [])
    (h2 : (revenueRangeCols t.cols).find? (fun x => ¬ colIsNumeric t.rows x) =
      some c) :
    validate_universe_file t = Except.error (nonNumericMsg c) ∧
      mentions (nonNumericMsg c) c = true ∧
      colIsNumeric t.rows c = false ∧ c ∈ revenueRangeCols t.cols := by
  have hmem := List.mem_of_find?_eq_some h2
  have hpc := List.find?_some h2
  have hcn : colIsNumeric t.rows c = false := by
    simpa using hpc
  refine ⟨?_, ?_, hcn, hmem⟩
  · unfold validate_universe_file
    rw [h1]
    rw [if_neg (by simp)]
    rw [if_neg (fun hemp => List.ne_nil_of_mem hmem (List.isEmpty_iff.mp hemp))]
    rw [h2]
  · unfold nonNumericMsg
    apply mentions_append_left
    apply mentions_append_right
    exact mentions_self c

theorem c5_amended_witness :
    (missingUniverseCols univTwoBad.cols = [] ∧
        (revenueRangeCols univTwoBad.cols).find?
          (fun x => ¬ colIsNumeric univTwoBad.rows x) = some "A") ∧
      validate_universe_file univTwoBad = Except.error (nonNumericMsg "A") :=
  ⟨⟨by decide, by decide⟩,
    (c5_amended univTwoBad "A" (by decide) (by decide)).1⟩

/-- One quota-table row holding a zero quota cell and a positive one. -/
def uRowMelt : URow := ⟨"USA", "Tech", [("1B+", some 0), ("250M", some 5)]⟩

/-- C6: the reshaping step (`pd.melt`, lines 59–64) is a full unpivot: the
long-form output has exactly `len(revenue_ranges) * len(rows)` rows; each
(country, industry) row yields exactly `len(revenue_ranges)` output rows
(counted over every country/industry key); and every cell — including
zero-valued and even missing (NaN) cells — yields its row, so no non-missing
cell is ever dropped from the long-form output. -/
theorem c6_melt_full_unpivot (univ : List URow) (ranges : List String) :
    (meltOf univ ranges).length = ranges.length * univ.length ∧
      (∀ c i : String,
        ((meltOf univ ranges).countP (fun m => m.Country = c && m.Industry = i)) =
          ranges.length * univ.countP (fun u => u.Country = c && u.Industry = i)) ∧
      (∀ u ∈ univ, ∀ rr ∈ ranges,
        ({ Country := u.Country, Industry := u.Industry, RevenueRange := rr,
            quota := u.cell rr } : MRow) ∈ meltOf univ ranges) := by
  refine ⟨?_, ?_, ?_⟩
  · induction ranges with
    | nil => simp [meltOf]
    | cons rr rs ih =>
      unfold meltOf at ih ⊢
      rw [List.flatMap_cons, List.length_append, List.length_map, ih,
        List.length_cons]
      ring
  · intro c i
    induction ranges with
    | nil => simp [meltOf]
    | cons rr rs ih =>
      unfold meltOf at ih ⊢
      rw [List.flatMap_cons, List.countP_append, List.countP_map, ih,
        List.length_cons]
      have hcomp : ((fun m : MRow => m.Country = c && m.Industry = i) ∘
          fun u : URow =>
            ({ Country := u.Country, Industry := u.Industry, RevenueRange := rr,
                quota := u.cell rr } : MRow)) =
          (fun u : URow => u.Country = c && u.Industry = i) := rfl
      rw [hcomp]
      ring
  · intro u hu rr hrr
    exact List.mem_flatMap.mpr ⟨rr, hrr, List.mem_map.mpr ⟨u, hu, rfl⟩⟩

theorem c6_melt_full_unpivot_witness :
    (uRowMelt ∈ [uRowMelt] ∧ "1B+" ∈ (["1B+", "250M"] : List String)) ∧
      (meltOf [uRowMelt] ["1B+", "250M"]).length = 2 * 1 ∧
      ({ Country := "USA", Industry := "Tech", RevenueRange := "1B+",
          quota := some 0 } : MRow) ∈ meltOf [uRowMelt] ["1B+", "250M"] :=
  ⟨⟨by decide, by decide⟩,
    (c6_melt_full_unpivot [uRowMelt] ["1B+", "250M"]).1,
    (c6_melt_full_unpivot [uRowMelt] ["1B+", "250M"]).2.2 uRowMelt (by decide)
      "1B+" (by decide)⟩

/-- C7: `validate_data_file` succeeds exactly when every non-missing revenue
range value of the respondent table is among the accepted names
(case-sensitive exact match); otherwise it fails with a schema error whose
message mentions every invalid value found and every accepted value. -/
theorem c7_validate_data_domain (rows : List DRow) (ranges : List String) :
    (validate_data_file rows ranges = Except.ok () ↔
        ∀ r ∈ rows, ∀ v, r.RevenueRange = some v → v ∈ ranges) ∧
      (∀ m, validate_data_file rows ranges = Except.error m →
        (∀ r ∈ rows, ∀ v, r.RevenueRange = some v → v ∉ ranges →
          mentions m v = true) ∧
        (∀ a ∈ ranges, mentions m a = true)) := by
  have hinv : ∀ v, v ∈ invalidRangeValues rows ranges ↔
      ((∃ r ∈ rows, r.RevenueRange = some v) ∧ v ∉ ranges) := by
    intro v
    unfold invalidRangeValues
    rw [List.mem_filter, mem_dedupL, List.mem_filterMap]
    simp
  constructor
  · constructor
    · intro hok r hr v hv
      by_contra hnotin
      have hv' : v ∈ invalidRangeValues rows ranges :=
        (hinv v).mpr ⟨⟨r, hr, hv⟩, hnotin⟩
      unfold validate_data_file at hok
      rw [if_neg (fun hemp =>
        List.ne_nil_of_mem hv' (List.isEmpty_iff.mp hemp))] at hok
      exact Except.noConfusion hok
    · intro hall
      have hempty : invalidRangeValues rows ranges = [] := by
        refine List.eq_nil_iff_forall_not_mem.mpr fun v hv => ?_
        rcases (hinv v).mp hv with ⟨⟨r, hr, hrv⟩, hnot⟩
        exact hnot (hall r hr v hrv)
      unfold validate_data_file
      rw [hempty]
      rfl
  · intro m hm
    unfold validate_data_file at hm
    by_cases hemp : (invalidRangeValues rows ranges).isEmpty = true
    · rw [if_pos hemp] at hm
      exact Except.noConfusion hm
    · rw [if_neg hemp] at hm
      have hm' : m = invalidRangesMsg (invalidRangeValues rows ranges) ranges :=
        (Except.error.inj hm).symm
      subst hm'
      constructor
      · intro r hr v hv hnot
        have hv' : v ∈ invalidRangeValues rows ranges :=
          (hinv v).mpr ⟨⟨r, hr, hv⟩, hnot⟩
        unfold invalidRangesMsg
        apply mentions_append_left
        apply mentions_append_left
        apply mentions_append_right
        exact mentions_joinComma hv'
      · intro a ha
        unfold invalidRangesMsg
        apply mentions_append_right
        exact mentions_joinComma ha

/-- Scenario C respondent table: one row with revenue range 2B+. -/
def dataScenC : List DRow := [⟨1, "Germany", "Retail", some "2B+"⟩]

/-- Scenario C accepted revenue-range names. -/
def rangesScenC : List String :=
  ["Less than 250M", "250M to 500M", "500M to 1B", "1B+"]

theorem c7_validate_data_domain_witness :
    validate_data_file dataScenC rangesScenC =
        Except.error (invalidRangesMsg ["2B+"] rangesScenC) ∧
      mentions (invalidRangesMsg ["2B+"] rangesScenC) "2B+" = true ∧
      mentions (invalidRangesMsg ["2B+"] rangesScenC) "Less than 250M" = true :=
  ⟨by decide,
    ((c7_validate_data_domain dataScenC rangesScenC).2
        (invalidRangesMsg ["2B+"] rangesScenC) (by decide)).1
      ⟨1, "Germany", "Retail", some "2B+"⟩ (by decide) "2B+" rfl (by decide),
    ((c7_validate_data_domain dataScenC rangesScenC).2
        (invalidRangesMsg ["2B+"] rangesScenC) (by decide)).2
      "Less than 250M" (by decide)⟩

/-- C8: the defensive internal-consistency check of lines 104–108: whenever
any required fulfillment column is absent from a column list, the check
fails with the internal-error message naming every missing column; the
wrapper of lines 119–120 re-raises it with the processing-error prefix, so
the internal-error marker and the missing column names survive to the caller
(the error is never silently swallowed).  On the columns the pipeline
actually produces (`fulfillmentCols`) nothing is missing, which is why
`process_files` always returns its outputs. -/
theorem c8_internal_column_check (cols : List String)
    (h : missingFulfillCols cols ≠ []) :
    ∃ m, fulfillColsCheck cols = some m ∧
      m = internalMsg (missingFulfillCols cols) ∧
      mentions m "Internal error: Missing columns" = true ∧
      (∀ c ∈ missingFulfillCols cols, mentions m c = true) ∧
      (∀ c ∈ requiredFulfillCols, c ∉ cols → mentions m c = true) ∧
      mentions (wrapProcessing m) "Internal error: Missing columns" = true ∧
      (∀ c ∈ missingFulfillCols cols, mentions (wrapProcessing m) c = true) ∧
      missingFulfillCols fulfillmentCols = [] := by
  have hmarker : mentions (internalMsg (missingFulfillCols cols))
      "Internal error: Missing columns" = true := by
    unfold internalMsg
    apply mentions_append_left
    decide
  have hnames : ∀ c ∈ missingFulfillCols cols,
      mentions (internalMsg (missingFulfillCols cols)) c = true := by
    intro c hc
    unfold internalMsg
    apply mentions_append_right
    exact mentions_joinComma hc
  refine ⟨internalMsg (missingFulfillCols cols), ?_, rfl, hmarker, hnames, ?_,
    mentions_append_right _ hmarker, fun c hc => mentions_append_right _ (hnames c hc),
    by decide⟩
  · unfold fulfillColsCheck
    rcases hm : missingFulfillCols cols with _ | ⟨c0, cs⟩
    · exact absurd hm h
    · rfl
  · intro c hc hnotin
    refine hnames c ?_
    unfold missingFulfillCols
    exact List.mem_filter.mpr ⟨hc, by simpa using hnotin⟩

theorem c8_internal_column_check_witness :
    missingFulfillCols ([] : List String) ≠ [] ∧
      fulfillColsCheck ([] : List String) =
        some (internalMsg (missingFulfillCols ([] : List String))) ∧
      mentions (internalMsg (missingFulfillCols ([] : List String))) "quota" = true := by
  obtain ⟨m, h1, h2, _, h4, _⟩ := c8_internal_column_check [] (by decide)
  subst h2
  exact ⟨by decide, h1, h4 "quota" (by decide)⟩

end QuotaApp
